import Mathlib

/-!
Shallow embedding of the extraction engine of heychar-hackaton/docparser
(src/internal/extract/extract.go), for checking the natural-language spec.

Modelling conventions:
* A Go byte slice or Go string is a `List Nat` of byte values; where a Go
  string is built from runes we keep the list of code points and convert with
  `goStr` (UTF-8 encoding), mirroring Go's string([]rune) conversion.
* Library functions used by the source (strings.ReplaceAll, regexp on the
  three ASCII patterns, unicode/utf8, unicode/utf16, golang.org/x/text
  charmap decoders, strconv.Atoi, encoding/hex) are modelled by their
  documented behaviour; the charmap decoding tables are the standard
  windows-1251 / koi8-r / iso-8859-5 / x-mac-cyrillic / cp866 tables used by
  golang.org/x/text (undefined byte 0x98 of windows-1251 decodes to U+FFFD).
* The PDF path spawns a subprocess and the DOCX path opens a zip archive and
  an XML decoder; those external effects are abstracted: the PDF and DOCX
  byte-level extractors are parameters of the dispatcher model, and the DOCX
  walker loop (extract.go:105-152) is modelled over an abstract XML token
  stream as produced by encoding/xml's Decoder.Token.
-/

deriving instance DecidableEq for Except

namespace Docparser

/-! ## ASCII word constants (byte values; no string literals used) -/

/-- Bytes of the control word fonttbl. -/
def wFonttbl : List Nat := [102, 111, 110, 116, 116, 98, 108]

/-- Bytes of the control word colortbl. -/
def wColortbl : List Nat := [99, 111, 108, 111, 114, 116, 98, 108]

/-- Bytes of the control word stylesheet. -/
def wStylesheet : List Nat := [115, 116, 121, 108, 101, 115, 104, 101, 101, 116]

/-- Bytes of the control word info. -/
def wInfo : List Nat := [105, 110, 102, 111]

/-- Bytes of the control word pict. -/
def wPict : List Nat := [112, 105, 99, 116]

/-- Bytes of the control word header. -/
def wHeader : List Nat := [104, 101, 97, 100, 101, 114]

/-- Bytes of the control word par. -/
def wPar : List Nat := [112, 97, 114]

/-- Bytes of the control word line. -/
def wLine : List Nat := [108, 105, 110, 101]

/-- Bytes of the control word tab (also the XML local name tab). -/
def wTab : List Nat := [116, 97, 98]

/-- Bytes of the control word footer. -/
def wFooter : List Nat := [102, 111, 111, 116, 101, 114]

/-! ## Line-ending normalization (strings.ReplaceAll in extractTXT / extractRTF) -/

/-- strings.ReplaceAll(s, CRLF, LF): replace each 13,10 pair by 10,
scanning left to right without rescanning the replacement. -/
def replaceCRLF : List Nat → List Nat
  | a :: b :: rest =>
      if a = 13 && b = 10 then 10 :: replaceCRLF rest
      else a :: replaceCRLF (b :: rest)
  | l => l

/-- strings.ReplaceAll(s, CR, LF): a one-byte pattern, i.e. a map. -/
def replaceCR (l : List Nat) : List Nat := l.map fun c => if c = 13 then 10 else c

/-- The two ReplaceAll calls applied by the TXT path before returning. -/
def normNL (l : List Nat) : List Nat := replaceCR (replaceCRLF l)

/-! ## RTF post-pass whitespace normalization (extract.go:294-301).
The three regexps are ASCII-only, so they act bytewise. -/

/-- Space or horizontal tab (the regexp class of space and tab). -/
def isSpTab (c : Nat) : Bool := c = 32 || c = 9

/-- RE2 class of whitespace: tab, newline, form feed, carriage return, space. -/
def isWS (c : Nat) : Bool := c = 9 || c = 10 || c = 12 || c = 13 || c = 32

/-- The punctuation class of the third regexp: comma period colon semicolon
exclamation question. -/
def isPunct (c : Nat) : Bool := c = 44 || c = 46 || c = 58 || c = 59 || c = 33 || c = 63

/-- Collapse every maximal run of two or more newlines to a single newline
(the first regexp replacement); keeping the last byte of each run yields the
same list as the regexp's replacement of the whole run by one newline. -/
def collapseNewlines : List Nat → List Nat
  | a :: b :: rest =>
      if a = 10 && b = 10 then collapseNewlines (b :: rest)
      else a :: collapseNewlines (b :: rest)
  | l => l

/-- Auxiliary for the second regexp: the flag records that the current
position continues a space/tab run whose earlier members were dropped, so
that the survivor of a run of length at least two is emitted as a space. -/
def collapseSpacesAux : Bool → List Nat → List Nat
  | _, [] => []
  | inRun, a :: rest =>
      if isSpTab a then
        match rest with
        | b :: _ =>
            if isSpTab b then collapseSpacesAux true rest
            else (if inRun then 32 else a) :: collapseSpacesAux false rest
        | [] => [if inRun then 32 else a]
      else a :: collapseSpacesAux false rest

/-- Collapse every maximal run of two or more spaces/tabs to one space;
a lone space or lone tab is left unchanged (run length below two). -/
def collapseSpaces (l : List Nat) : List Nat := collapseSpacesAux false l

/-- Head test used by the whitespace-before-punctuation removal. -/
def punctHead : List Nat → Bool
  | p :: _ => isPunct p
  | [] => false

/-- Third regexp: delete every maximal whitespace run that immediately
precedes a punctuation byte, keeping the punctuation.  Processing from the
right, a whitespace byte is dropped exactly when everything between it and a
punctuation byte has been dropped, which reproduces the leftmost,
non-overlapping replacement of the regexp. -/
def rmSp : List Nat → List Nat
  | [] => []
  | c :: l => if isWS c && punctHead (rmSp l) then rmSp l else c :: rmSp l

/-- The full post-pass normalization applied to the RTF tokenizer output,
in source order: CRLF to LF, CR to LF, collapse newline runs, collapse
space/tab runs, drop whitespace before punctuation. -/
def normalizeRTF (l : List Nat) : List Nat :=
  rmSp (collapseSpaces (collapseNewlines (replaceCR (replaceCRLF l))))

/-! ## UTF-8 (unicode/utf8) -/

/-- A UTF-8 continuation byte. -/
def utf8Cont (c : Nat) : Bool := 128 ≤ c && c ≤ 191

/-- utf8.Valid: whether the byte list is well-formed UTF-8 (shortest-form
encodings of scalar values, surrogates excluded), per Go's accept ranges. -/
def utf8Valid : List Nat → Bool
  | [] => true
  | b :: rest =>
      if b ≤ 127 then utf8Valid rest
      else if 194 ≤ b && b ≤ 223 then
        match rest with
        | c :: r => utf8Cont c && utf8Valid r
        | [] => false
      else if b = 224 then
        match rest with
        | c :: d :: r => (160 ≤ c && c ≤ 191) && utf8Cont d && utf8Valid r
        | _ => false
      else if 225 ≤ b && b ≤ 236 then
        match rest with
        | c :: d :: r => utf8Cont c && utf8Cont d && utf8Valid r
        | _ => false
      else if b = 237 then
        match rest with
        | c :: d :: r => (128 ≤ c && c ≤ 159) && utf8Cont d && utf8Valid r
        | _ => false
      else if 238 ≤ b && b ≤ 239 then
        match rest with
        | c :: d :: r => utf8Cont c && utf8Cont d && utf8Valid r
        | _ => false
      else if b = 240 then
        match rest with
        | c :: d :: e :: r => (144 ≤ c && c ≤ 191) && utf8Cont d && utf8Cont e && utf8Valid r
        | _ => false
      else if 241 ≤ b && b ≤ 243 then
        match rest with
        | c :: d :: e :: r => utf8Cont c && utf8Cont d && utf8Cont e && utf8Valid r
        | _ => false
      else if b = 244 then
        match rest with
        | c :: d :: e :: r => (128 ≤ c && c ≤ 143) && utf8Cont d && utf8Cont e && utf8Valid r
        | _ => false
      else false

/-- UTF-8 encoding of a valid scalar value (no validity check here). -/
def encodeValidRune (r : Nat) : List Nat :=
  if r < 128 then [r]
  else if r < 2048 then [192 + r / 64, 128 + r % 64]
  else if r < 65536 then [224 + r / 4096, 128 + r / 64 % 64, 128 + r % 64]
  else [240 + r / 262144, 128 + r / 4096 % 64, 128 + r / 64 % 64, 128 + r % 64]

/-- Go's rune sanitation: a value outside the scalar range (negative,
surrogate, above U+10FFFF) becomes U+FFFD, as in utf8.AppendRune and in the
string([]rune) conversion. -/
def goRune (v : Int) : Nat :=
  if 0 ≤ v ∧ (v < 55296 ∨ (57343 < v ∧ v ≤ 1114111)) then v.toNat else 65533

/-- Bytes written by strings.Builder.WriteRune for rune value v. -/
def utf8EncodeRune (v : Int) : List Nat := encodeValidRune (goRune v)

/-- Go string([]rune) conversion: UTF-8 encode each code point (invalid ones
become U+FFFD). -/
def goStr (runes : List Nat) : List Nat :=
  (runes.map fun r => encodeValidRune (goRune (r : Int))).flatten

/-! ## UTF-16 (unicode/utf16 plus the byte pairing loops of the source) -/

/-- The byte-pairing loops of extractTXT / extractRTF: consume the list two
bytes at a time (a trailing odd byte is dropped), little or big endian. -/
def utf16Pairs (le : Bool) : List Nat → List Nat
  | a :: b :: rest => (if le then a + 256 * b else b + 256 * a) :: utf16Pairs le rest
  | _ => []

/-- utf16.Decode: surrogate pairs combine, unpaired surrogates become
U+FFFD, other units pass through. -/
def utf16DecodeU : List Nat → List Nat
  | [] => []
  | [u] => if u < 55296 ∨ 57343 < u then [u] else [65533]
  | u :: v :: rest =>
      if u < 55296 ∨ 57343 < u then u :: utf16DecodeU (v :: rest)
      else if u < 56320 ∧ 56320 ≤ v ∧ v < 57344 then
        (65536 + (u - 55296) * 1024 + (v - 56320)) :: utf16DecodeU rest
      else 65533 :: utf16DecodeU (v :: rest)

/-- Leading UTF-16 little-endian byte-order mark (FF FE). -/
def bomLE : List Nat → Bool
  | a :: b :: _ => a = 255 && b = 254
  | _ => false

/-- Leading UTF-16 big-endian byte-order mark (FE FF). -/
def bomBE : List Nat → Bool
  | a :: b :: _ => a = 254 && b = 255
  | _ => false

/-! ## Legacy Cyrillic charmap tables (high half 0x80..0xFF; low half is
ASCII identity in all five encodings).  Undefined bytes decode to U+FFFD,
matching the x/text charmap decoders. -/

/-- windows-1251 decoding values for bytes 128..255 (0x98 is undefined). -/
def win1251T : List Nat :=
  [1026, 1027, 8218, 1107, 8222, 8230, 8224, 8225, 8364, 8240, 1033, 8249, 1034, 1036, 1035, 1039,
   1106, 8216, 8217, 8220, 8221, 8226, 8211, 8212, 65533, 8482, 1113, 8250, 1114, 1116, 1115, 1119,
   160, 1038, 1118, 1032, 164, 1168, 166, 167, 1025, 169, 1028, 171, 172, 173, 174, 1031,
   176, 177, 1030, 1110, 1169, 181, 182, 183, 1105, 8470, 1108, 187, 1112, 1029, 1109, 1111,
   1040, 1041, 1042, 1043, 1044, 1045, 1046, 1047, 1048, 1049, 1050, 1051, 1052, 1053, 1054, 1055,
   1056, 1057, 1058, 1059, 1060, 1061, 1062, 1063, 1064, 1065, 1066, 1067, 1068, 1069, 1070, 1071,
   1072, 1073, 1074, 1075, 1076, 1077, 1078, 1079, 1080, 1081, 1082, 1083, 1084, 1085, 1086, 1087,
   1088, 1089, 1090, 1091, 1092, 1093, 1094, 1095, 1096, 1097, 1098, 1099, 1100, 1101, 1102, 1103]

/-- koi8-r decoding values for bytes 128..255. -/
def koi8rT : List Nat :=
  [9472, 9474, 9484, 9488, 9492, 9496, 9500, 9508, 9516, 9524, 9532, 9600, 9604, 9608, 9612, 9616,
   9617, 9618, 9619, 8992, 9632, 8729, 8730, 8776, 8804, 8805, 160, 8993, 176, 178, 183, 247,
   9552, 9553, 9554, 1105, 9555, 9556, 9557, 9558, 9559, 9560, 9561, 9562, 9563, 9564, 9565, 9566,
   9567, 9568, 9569, 1025, 9570, 9571, 9572, 9573, 9574, 9575, 9576, 9577, 9578, 9579, 9580, 169,
   1102, 1072, 1073, 1094, 1076, 1077, 1092, 1075, 1093, 1080, 1081, 1082, 1083, 1084, 1085, 1086,
   1087, 1103, 1088, 1089, 1090, 1091, 1078, 1074, 1100, 1099, 1079, 1096, 1101, 1097, 1095, 1098,
   1070, 1040, 1041, 1062, 1044, 1045, 1060, 1043, 1061, 1048, 1049, 1050, 1051, 1052, 1053, 1054,
   1055, 1071, 1056, 1057, 1058, 1059, 1046, 1042, 1068, 1067, 1047, 1064, 1069, 1065, 1063, 1066]

/-- iso-8859-5 decoding values for bytes 128..255. -/
def iso88595T : List Nat :=
  [128, 129, 130, 131, 132, 133, 134, 135, 136, 137, 138, 139, 140, 141, 142, 143,
   144, 145, 146, 147, 148, 149, 150, 151, 152, 153, 154, 155, 156, 157, 158, 159,
   160, 1025, 1026, 1027, 1028, 1029, 1030, 1031, 1032, 1033, 1034, 1035, 1036, 173, 1038, 1039,
   1040, 1041, 1042, 1043, 1044, 1045, 1046, 1047, 1048, 1049, 1050, 1051, 1052, 1053, 1054, 1055,
   1056, 1057, 1058, 1059, 1060, 1061, 1062, 1063, 1064, 1065, 1066, 1067, 1068, 1069, 1070, 1071,
   1072, 1073, 1074, 1075, 1076, 1077, 1078, 1079, 1080, 1081, 1082, 1083, 1084, 1085, 1086, 1087,
   1088, 1089, 1090, 1091, 1092, 1093, 1094, 1095, 1096, 1097, 1098, 1099, 1100, 1101, 1102, 1103,
   8470, 1105, 1106, 1107, 1108, 1109, 1110, 1111, 1112, 1113, 1114, 1115, 1116, 167, 1118, 1119]

/-- x-mac-cyrillic decoding values for bytes 128..255. -/
def macCyrT : List Nat :=
  [1040, 1041, 1042, 1043, 1044, 1045, 1046, 1047, 1048, 1049, 1050, 1051, 1052, 1053, 1054, 1055,
   1056, 1057, 1058, 1059, 1060, 1061, 1062, 1063, 1064, 1065, 1066, 1067, 1068, 1069, 1070, 1071,
   8224, 176, 1168, 163, 167, 8226, 182, 1030, 174, 169, 8482, 1026, 1106, 8800, 1027, 1107,
   8734, 177, 8804, 8805, 1110, 181, 1169, 1032, 1028, 1108, 1031, 1111, 1033, 1113, 1034, 1114,
   1112, 1029, 172, 8730, 402, 8776, 8710, 171, 187, 8230, 160, 1035, 1115, 1036, 1116, 1109,
   8211, 8212, 8220, 8221, 8216, 8217, 247, 8222, 1038, 1118, 1039, 1119, 8470, 1025, 1105, 1103,
   1072, 1073, 1074, 1075, 1076, 1077, 1078, 1079, 1080, 1081, 1082, 1083, 1084, 1085, 1086, 1087,
   1088, 1089, 1090, 1091, 1092, 1093, 1094, 1095, 1096, 1097, 1098, 1099, 1100, 1101, 1102, 8364]

/-- cp866 decoding values for bytes 128..255. -/
def cp866T : List Nat :=
  [1040, 1041, 1042, 1043, 1044, 1045, 1046, 1047, 1048, 1049, 1050, 1051, 1052, 1053, 1054, 1055,
   1056, 1057, 1058, 1059, 1060, 1061, 1062, 1063, 1064, 1065, 1066, 1067, 1068, 1069, 1070, 1071,
   1072, 1073, 1074, 1075, 1076, 1077, 1078, 1079, 1080, 1081, 1082, 1083, 1084, 1085, 1086, 1087,
   9617, 9618, 9619, 9474, 9508, 9569, 9570, 9558, 9557, 9571, 9553, 9559, 9565, 9564, 9563, 9488,
   9492, 9524, 9516, 9500, 9472, 9532, 9566, 9567, 9562, 9556, 9577, 9574, 9568, 9552, 9580, 9575,
   9576, 9572, 9573, 9561, 9560, 9554, 9555, 9579, 9578, 9496, 9484, 9608, 9604, 9612, 9616, 9600,
   1088, 1089, 1090, 1091, 1092, 1093, 1094, 1095, 1096, 1097, 1098, 1099, 1100, 1101, 1102, 1103,
   1025, 1105, 1028, 1108, 1031, 1111, 1038, 1118, 176, 8729, 183, 8730, 8470, 164, 9632, 160]

/-- Decode one byte under a single-byte charmap (identity below 0x80). -/
def decByte (t : List Nat) (b : Nat) : Nat := if b < 128 then b else t.getD (b - 128) 0

/-- The candidate decodings tried by decodeBestCyrillic, in source order:
windows-1251, koi8-r, iso-8859-5, mac-cyrillic, cp866.  Each decoded text is
represented by its code-point sequence; ranging over the corresponding Go
string visits exactly these code points since all are valid scalars. -/
def candidateTexts (data : List Nat) : List (List Nat) :=
  [data.map (decByte win1251T), data.map (decByte koi8rT), data.map (decByte iso88595T),
   data.map (decByte macCyrT), data.map (decByte cp866T)]

/-! ## Scoring and best-candidate selection (extract.go:375-431) -/

/-- Replacement marker U+FFFD. -/
def isRepl (r : Nat) : Bool := r = 65533

/-- Cyrillic and Cyrillic-extended block, U+0400..U+052F. -/
def isCyr (r : Nat) : Bool := 1024 ≤ r && r ≤ 1327

/-- Printable ASCII, U+0020..U+007E. -/
def isAsciiPrint (r : Nat) : Bool := 32 ≤ r && r ≤ 126

/-- Control characters other than newline, tab, carriage return. -/
def isCtrlOther (r : Nat) : Bool := r < 32 && r ≠ 10 && r ≠ 9 && r ≠ 13

/-- scoreCyrillicText: the heuristic score of a decoded text.  The four
switch cases of the source are mutually exclusive, so per-class counts are
List.countP. -/
def scoreCyrillicText (s : List Nat) : Int :=
  if s = [] then -1000000
  else 3 * (s.countP isCyr : Int) + (s.countP isAsciiPrint : Int)
       - 50 * (s.countP isRepl : Int) - 5 * (s.countP isCtrlOther : Int)

/-- The selection loop of decodeBestCyrillic: keep the first candidate whose
score strictly exceeds the best so far (accumulator starts at the empty text
with score -2^31). -/
def pickBest : List (List Nat) → List Nat × Int → List Nat × Int
  | [], acc => acc
  | t :: ts, acc =>
      if acc.2 < scoreCyrillicText t then pickBest ts (t, scoreCyrillicText t)
      else pickBest ts acc

/-- decodeBestCyrillic: best-scoring candidate, rejected (none) when it is
empty or contains the replacement marker U+FFFD. -/
def decodeBestCyrillic (data : List Nat) : Option (List Nat) :=
  let bt := (pickBest (candidateTexts data) ([], -2147483648)).1
  if bt = [] then none
  else if bt.contains 65533 then none
  else some bt

/-! ## The TXT extractor (extract.go:327-372) -/

/-- extractTXT: UTF-16 BOM decoding, UTF-8 passthrough, scored legacy
decode, byte-to-code-point fallback; all branches normalize line endings and
none returns an error. -/
def extractTXT (data : List Nat) : Except (List Nat) (List Nat) :=
  if bomLE data then
    .ok (normNL (goStr (utf16DecodeU (utf16Pairs true (data.drop 2)))))
  else if bomBE data then
    .ok (normNL (goStr (utf16DecodeU (utf16Pairs false (data.drop 2)))))
  else if utf8Valid data then
    .ok (normNL data)
  else
    match decodeBestCyrillic data with
    | some t => .ok (normNL (goStr t))
    | none => .ok (normNL (goStr data))

/-! ## The RTF tokenizer (extract.go:155-325) -/

/-- ASCII letter, as in the source's isLetter closure. -/
def isLetter (c : Nat) : Bool := (97 ≤ c && c ≤ 122) || (65 ≤ c && c ≤ 90)

/-- ASCII digit. -/
def isDigit (c : Nat) : Bool := 48 ≤ c && c ≤ 57

/-- encoding/hex digit value (0-9, a-f, A-F). -/
def hexVal (c : Nat) : Option Nat :=
  if 48 ≤ c ∧ c ≤ 57 then some (c - 48)
  else if 97 ≤ c ∧ c ≤ 102 then some (c - 87)
  else if 65 ≤ c ∧ c ≤ 70 then some (c - 55)
  else none

/-- Decimal value of a digit string. -/
def digitsToNat (ds : List Nat) : Nat := ds.foldl (fun a d => a * 10 + (d - 48)) 0

/-- Go int32 conversion (wrap to the signed 32-bit range). -/
def int32wrap (v : Int) : Int := (v + 2147483648).emod 4294967296 - 2147483648

/-- Control words that open a skipped destination group. -/
def destWord (w : List Nat) : Bool :=
  w = wFonttbl || w = wColortbl || w = wStylesheet || w = wInfo || w = wPict ||
  w = wHeader || w = wFooter

/-- The tokenizer's loop state: input position, group depth, skip marker
(-1 when unset, as in the source), and the output bytes built so far. -/
structure RtfState where
  i : Nat
  depth : Nat
  skip : Int
  out : List Nat
deriving Repr, DecidableEq

/-- One control-symbol step (backslash followed by a non-letter), with c2
the symbol byte and rest2 the bytes after it. -/
def rtfSymStep (s : RtfState) (c2 : Nat) (rest2 : List Nat) : RtfState :=
  if c2 = 92 ∨ c2 = 123 ∨ c2 = 125 then
    { s with i := s.i + 2, out := if s.skip < 0 then s.out ++ [c2] else s.out }
  else if c2 = 126 then
    { s with i := s.i + 2, out := if s.skip < 0 then s.out ++ [32] else s.out }
  else if c2 = 45 then { s with i := s.i + 2 }
  else if c2 = 95 then
    { s with i := s.i + 2, out := if s.skip < 0 then s.out ++ [45] else s.out }
  else if c2 = 42 then
    { s with i := s.i + 2, skip := if s.skip < 0 then (s.depth : Int) else s.skip }
  else if c2 = 39 then
    match rest2 with
    | h1 :: h2 :: _ =>
        match hexVal h1, hexVal h2 with
        | some a, some b =>
            { s with i := s.i + 4, out := if s.skip < 0 then s.out ++ [16 * a + b] else s.out }
        | _, _ => { s with i := s.i + 4 }
    | _ => { s with i := s.i + 2 }
  else { s with i := s.i + 2 }

/-- Word-effect switch and trailing-space swallow, shared tail of the
control-word step: out and k are the output and input position after the
optional numeric argument (and optional fallback byte), restK the input from
position k. -/
def rtfWordFinish (s : RtfState) (w out : List Nat) (k : Nat) (restK : List Nat) : RtfState :=
  let out2 :=
    if (w = wPar ∨ w = wLine) ∧ s.skip < 0 then out ++ [10]
    else if w = wTab ∧ s.skip < 0 then out ++ [9]
    else out
  let skip2 := if destWord w ∧ s.skip < 0 then (s.depth : Int) else s.skip
  let k2 := if restK.head? = some 32 then k + 1 else k
  { s with i := k2, out := out2, skip := skip2 }

/-- One control-word step (backslash followed by a letter c2, rest2 the
bytes after c2): read the word, the optional signed numeric argument, apply
the u escape (strconv.Atoi succeeds on a nonempty digit string of value at
most 2^63 - 1; rune(int32(v)) wraps to 32 bits and invalid scalar values are
written as U+FFFD), then the word switch and the delimiter space. -/
def rtfWordStep (s : RtfState) (c2 : Nat) (rest2 : List Nat) : RtfState :=
  let w := (c2 :: rest2).takeWhile isLetter
  let afterW := (c2 :: rest2).dropWhile isLetter
  let kW := s.i + 1 + w.length
  let headA := afterW.headD 0
  let enterNum := headA = 45 ∨ isDigit headA = true
  let neg := headA = 45
  let afterSign := if neg then afterW.tail else afterW
  let kSign := if neg then kW + 1 else kW
  let ds := if enterNum then afterSign.takeWhile isDigit else []
  let restA := if enterNum then afterSign.dropWhile isDigit else afterW
  let kA := if enterNum then kSign + ds.length else kW
  let uRes : List Nat × Nat × List Nat :=
    if w = [117] ∧ ds ≠ [] ∧ digitsToNat ds ≤ 9223372036854775807 then
      let v : Int := if neg then -(digitsToNat ds : Int) else (digitsToNat ds : Int)
      let out1 := if s.skip < 0 then s.out ++ utf8EncodeRune (int32wrap v) else s.out
      if restA.head? = some 63 then (out1, kA + 1, restA.tail) else (out1, kA, restA)
    else (s.out, kA, restA)
  rtfWordFinish s w uRes.1 uRes.2.1 uRes.2.2

/-- One iteration of the tokenizer loop, reading from position s.i. -/
def stepRTF (data : List Nat) (s : RtfState) : RtfState :=
  match data.drop s.i with
  | [] => s
  | 123 :: _ => { s with i := s.i + 1, depth := s.depth + 1 }
  | 125 :: _ =>
      { s with i := s.i + 1,
               skip := if 0 ≤ s.skip ∧ (s.depth : Int) = s.skip then -1 else s.skip,
               depth := if 0 < s.depth then s.depth - 1 else s.depth }
  | 92 :: rest =>
      match rest with
      | [] => { s with i := s.i + 1 }
      | c2 :: rest2 => if isLetter c2 then rtfWordStep s c2 rest2 else rtfSymStep s c2 rest2
  | c :: _ =>
      if c = 13 ∨ c = 10 then { s with i := s.i + 1 }
      else { s with i := s.i + 1, out := if s.skip < 0 then s.out ++ [c] else s.out }

/-- The tokenizer loop, driven by fuel; each iteration strictly advances
s.i, so fuel data.length from the initial state runs the loop to completion
(certified below by runRTF_complete). -/
def runRTF (data : List Nat) : Nat → RtfState → RtfState
  | 0, s => s
  | fuel + 1, s => if s.i < data.length then runRTF data fuel (stepRTF data s) else s

/-- extractRTF: run the tokenizer, normalize whitespace, and re-decode as
UTF-16 when the result is invalid UTF-8 with a byte-order mark.  Every
return of the source carries a nil error. -/
def extractRTF (data : List Nat) : Except (List Nat) (List Nat) :=
  let st := runRTF data data.length ⟨0, 0, -1, []⟩
  let out := normalizeRTF st.out
  if utf8Valid out then .ok out
  else if bomLE out then .ok (goStr (utf16DecodeU (utf16Pairs true (out.drop 2))))
  else if bomBE out then .ok (goStr (utf16DecodeU (utf16Pairs false (out.drop 2))))
  else .ok out

/-! ## The DOCX walker loop (extract.go:105-152), over the XML token stream
of word/document.xml.  The zip container and encoding/xml tokenizer are
external; a mid-stream decoding failure surfaces as an error token. -/

/-- One xml.Decoder.Token result: start element (namespace, local name),
end element, character data, any other token kind, or a decoding error;
end of list is io.EOF. -/
inductive XmlEvent where
  | start (space locl : List Nat)
  | endEl (locl : List Nat)
  | chardata (s : List Nat)
  | other
  | errTok (msg : List Nat)
deriving Repr, DecidableEq

/-- XML local name t. -/
def wT : List Nat := [116]

/-- XML local name br. -/
def wBr : List Nat := [98, 114]

/-- XML local name p. -/
def wP : List Nat := [112]

mutual
/-- The outer token loop: element stack bookkeeping, br / tab / p breaks,
and the inner text loop on a start tag named t.  Result is the pair
(built text, error), mirroring the Go (string, error) returns: every
error return carries the empty string. -/
def docxOuter : List XmlEvent → List (List Nat × List Nat) → List Nat →
    List Nat × Option (List Nat)
  | [], _, acc => (acc, none)
  | .errTok m :: _, _, _ => ([], some m)
  | .start sp l :: rest, stack, acc =>
      let stack2 := (sp, l) :: stack
      if l = wBr then docxOuter rest stack2 (acc ++ [10])
      else if l = wTab then docxOuter rest stack2 (acc ++ [9])
      else if l = wT then docxInT rest stack2 acc []
      else docxOuter rest stack2 acc
  | .endEl l :: rest, stack, acc =>
      if l = wP then docxOuter rest stack.tail (acc ++ [10])
      else docxOuter rest stack.tail acc
  | .chardata _ :: rest, stack, acc => docxOuter rest stack acc
  | .other :: rest, stack, acc => docxOuter rest stack acc

/-- The inner loop of a t element: accumulate character data until the end
tag named t (other tokens are ignored; EOF falls back to the outer loop,
which then also sees EOF). -/
def docxInT : List XmlEvent → List (List Nat × List Nat) → List Nat → List Nat →
    List Nat × Option (List Nat)
  | [], _, acc, txt => (acc ++ txt, none)
  | .errTok m :: _, _, _, _ => ([], some m)
  | .chardata sx :: rest, stack, acc, txt => docxInT rest stack acc (txt ++ sx)
  | .endEl l :: rest, stack, acc, txt =>
      if l = wT then docxOuter rest stack (acc ++ txt)
      else docxInT rest stack acc txt
  | .start _ _ :: rest, stack, acc, txt => docxInT rest stack acc txt
  | .other :: rest, stack, acc, txt => docxInT rest stack acc txt
end

/-- The walker on the token stream of word/document.xml, from the state at
entry of the loop. -/
def extractDOCXStream (evs : List XmlEvent) : List Nat × Option (List Nat) :=
  docxOuter evs [] []

/-- Whether the stream contains a decoding error token. -/
def hasErrTok (evs : List XmlEvent) : Bool :=
  evs.any fun e => match e with
    | .errTok _ => true
    | _ => false

/-! ## The dispatcher (extract.go:23-47) -/

/-- filepath.Ext scan over the reversed name bytes: collect until a dot
(kept) or stop empty at a path separator or the start.  filepath.Ext works
on raw bytes, so this is exact for every filename. -/
def extScan : List Nat → List Nat → List Nat
  | [], _ => []
  | c :: rest, acc =>
      if c = 47 then []
      else if c = 46 then 46 :: acc
      else extScan rest (c :: acc)

/-- filepath.Ext: the suffix from the final dot of the last path element. -/
def filepathExt (name : List Nat) : List Nat := extScan name.reverse []

/-- strings.ToLower on an ASCII byte string (Go's all-ASCII fast path):
bytes A-Z become a-z, all other bytes are unchanged.  This is byte-exact
for extensions made of ASCII bytes only; on other input Go additionally
applies Unicode simple lowercasing and replaces invalid UTF-8 with U+FFFD,
which this model does not cover, so the dispatcher theorem below carries an
ASCII-extension hypothesis delimiting the faithful domain. -/
def toLowerGo (l : List Nat) : List Nat := l.map fun c => if 65 ≤ c ∧ c ≤ 90 then c + 32 else c

/-- bytes.HasPrefix. -/
def hasLead : List Nat → List Nat → Bool
  | [], _ => true
  | _ :: _, [] => false
  | p :: ps, d :: dtl => p = d && hasLead ps dtl

/-- Lower-cased extension .pdf -/
def extPdf : List Nat := [46, 112, 100, 102]

/-- Lower-cased extension .docx -/
def extDocx : List Nat := [46, 100, 111, 99, 120]

/-- Lower-cased extension .rtf -/
def extRtf : List Nat := [46, 114, 116, 102]

/-- Lower-cased extension .txt -/
def extTxt : List Nat := [46, 116, 120, 116]

/-- Leading signature %PDF -/
def sigPdf : List Nat := [37, 80, 68, 70]

/-- Leading signature PK -/
def sigPk : List Nat := [80, 75]

/-- Leading signature of an RTF file: left brace, backslash, r, t, f. -/
def sigRtf : List Nat := [123, 92, 114, 116, 102]

/-- Bytes of the error text: unsupported file type colon space. -/
def unsupportedMsg : List Nat :=
  [117, 110, 115, 117, 112, 112, 111, 114, 116, 101, 100, 32, 102, 105, 108, 101, 32,
   116, 121, 112, 101, 58, 32]

/-- The extractor chosen by ExtractText. -/
inductive Route where
  | pdf
  | docx
  | rtf
  | txt
  | unsupported (ext : List Nat)
deriving Repr, DecidableEq

/-- The selection logic of ExtractText: extension first, then leading-byte
signatures, else the unsupported-format failure carrying the extension. -/
def dispatch (filename data : List Nat) : Route :=
  let ext := toLowerGo (filepathExt filename)
  if ext = extPdf then .pdf
  else if ext = extDocx then .docx
  else if ext = extRtf then .rtf
  else if ext = extTxt ∨ ext = [] then .txt
  else if hasLead sigPdf data then .pdf
  else if hasLead sigPk data then .docx
  else if hasLead sigRtf data then .rtf
  else .unsupported ext

/-- ExtractText with the two externally-effectful extractors (PDF
subprocess, DOCX zip walker) abstracted as parameters; the RTF and TXT
extractors are the concrete ones above. -/
def ExtractTextM (pdfE docxE : List Nat → Except (List Nat) (List Nat))
    (filename data : List Nat) : Except (List Nat) (List Nat) :=
  match dispatch filename data with
  | .pdf => pdfE data
  | .docx => docxE data
  | .rtf => extractRTF data
  | .txt => extractTXT data
  | .unsupported ext => .error (unsupportedMsg ++ ext)

/-- A stub extractor used to state closed facts about paths of ExtractTextM
that do not reach the PDF or DOCX extractor. -/
def stubExtractor : List Nat → Except (List Nat) (List Nat) := fun _ => .error []

/-- The RTF bytes of the spec example: left brace, backslash fonttbl, left
brace, backslash f0 space Arial semicolon, two right braces, Text. -/
def rtfC2Input : List Nat :=
  [123, 92, 102, 111, 110, 116, 116, 98, 108, 123, 92, 102, 48, 32, 65, 114, 105, 97, 108,
   59, 125, 125, 84, 101, 120, 116]

/-- A concrete large input for the charset resolver: one 0xC8 byte followed
by half a billion NUL bytes.  Every trial decoding scores 3 - 5n or -5n,
below the selection loop's initial best score of -2^31. -/
def c1data : List Nat := 200 :: List.replicate 500000000 0

/-! # Theorems -/

/-! ## TXT path: UTF-8 passthrough (C5) and totality (C9) -/

/-- C5: for every input byte sequence that is valid UTF-8 and does not begin
with a UTF-16 BOM, the TXT extractor succeeds and returns the input with
every CRLF pair and every remaining CR replaced by LF, and nothing else
changed. -/
theorem txt_utf8_passthrough (data : List Nat) (h1 : bomLE data = false)
    (h2 : bomBE data = false) (h3 : utf8Valid data = true) :
    extractTXT data = .ok (normNL data) := by
  simp [extractTXT, h1, h2, h3]

/-- Witness for txt_utf8_passthrough at the bytes a CR LF b. -/
theorem txt_utf8_passthrough_witness :
    extractTXT [97, 13, 10, 98] = .ok [97, 10, 98] :=
  (txt_utf8_passthrough [97, 13, 10, 98] rfl rfl rfl).trans (by decide)

/-- C9: the TXT extractor returns a successful result on every input byte
sequence; the decode-failure error kind is unreachable on the TXT path. -/
theorem txt_total (data : List Nat) : ∃ t, extractTXT data = .ok t := by
  unfold extractTXT
  split
  · exact ⟨_, rfl⟩
  split
  · exact ⟨_, rfl⟩
  split
  · exact ⟨_, rfl⟩
  split
  · exact ⟨_, rfl⟩
  · exact ⟨_, rfl⟩

/-! ## Dispatcher (C3) -/

/-- C3, counterexample: the filename consisting of the single letter x has
no extension and the empty byte sequence matches no signature, yet
extraction succeeds (the empty-extension case is routed to the TXT path),
instead of failing with an unsupported-format error as claimed. -/
theorem dispatch_noext_counterexample :
    filepathExt [120] = [] ∧ hasLead sigPdf [] = false ∧ hasLead sigPk [] = false ∧
    hasLead sigRtf [] = false ∧
    ExtractTextM stubExtractor stubExtractor [120] [] = .ok [] := by
  refine ⟨rfl, rfl, rfl, rfl, ?_⟩
  rfl

set_option linter.unusedVariables false in
/-- C3, amended: for every filename whose extension consists of ASCII
bytes (the domain on which the ToLower model above is byte-exact) and whose
lower-cased extension is neither .pdf, .docx, .rtf, .txt nor empty, the
dispatcher selects the extractor by leading-byte signature, and when no
signature matches it fails with the unsupported-format error naming the
lower-cased extension.  (A filename with an empty extension is instead
routed to the TXT path.)  The ASCII hypothesis is not needed by the proof,
since the model is ASCII-lowercasing throughout; it confines the statement
to the inputs on which that model coincides with strings.ToLower. -/
theorem dispatch_by_signature (pdfE docxE : List Nat → Except (List Nat) (List Nat))
    (filename data : List Nat)
    (hascii : ∀ b ∈ filepathExt filename, b < 128)
    (h0 : toLowerGo (filepathExt filename) ≠ [])
    (h1 : toLowerGo (filepathExt filename) ≠ extPdf)
    (h2 : toLowerGo (filepathExt filename) ≠ extDocx)
    (h3 : toLowerGo (filepathExt filename) ≠ extRtf)
    (h4 : toLowerGo (filepathExt filename) ≠ extTxt) :
    (hasLead sigPdf data = true → ExtractTextM pdfE docxE filename data = pdfE data) ∧
    (hasLead sigPdf data = false → hasLead sigPk data = true →
      ExtractTextM pdfE docxE filename data = docxE data) ∧
    (hasLead sigPdf data = false → hasLead sigPk data = false → hasLead sigRtf data = true →
      ExtractTextM pdfE docxE filename data = extractRTF data) ∧
    (hasLead sigPdf data = false → hasLead sigPk data = false → hasLead sigRtf data = false →
      ExtractTextM pdfE docxE filename data =
        .error (unsupportedMsg ++ toLowerGo (filepathExt filename))) := by
  refine ⟨fun hp => ?_, fun hp hk => ?_, fun hp hk hr => ?_, fun hp hk hr => ?_⟩ <;>
    simp [ExtractTextM, dispatch, h0, h1, h2, h3, h4, hp] <;>
    simp [hk] <;> simp [hr]

/-- Witness for dispatch_by_signature: filename a.xyz with bytes starting
in %PDF reaches the PDF extractor. -/
theorem dispatch_by_signature_witness :
    ExtractTextM stubExtractor stubExtractor [97, 46, 120, 121, 122] [37, 80, 68, 70] =
      stubExtractor [37, 80, 68, 70] :=
  (dispatch_by_signature stubExtractor stubExtractor [97, 46, 120, 121, 122] [37, 80, 68, 70]
    (by decide) (by decide) (by decide) (by decide) (by decide) (by decide)).1 (by decide)

/-! ## RTF loop progress and totality (C10) -/

/-- A control-symbol step advances the input position by at least two. -/
theorem rtfSymStep_i (s : RtfState) (c2 : Nat) (rest2 : List Nat) :
    s.i + 2 ≤ (rtfSymStep s c2 rest2).i := by
  unfold rtfSymStep
  repeat' split
  all_goals simp

/-- A control-word step advances the input position by at least two. -/
theorem rtfWordStep_i (s : RtfState) (c2 : Nat) (rest2 : List Nat) (h : isLetter c2 = true) :
    s.i + 2 ≤ (rtfWordStep s c2 rest2).i := by
  unfold rtfWordStep rtfWordFinish
  rw [List.takeWhile_cons_of_pos h]
  simp only [List.length_cons]
  generalize List.dropWhile isLetter (c2 :: rest2) = A
  repeat' split
  all_goals (dsimp only; omega)

/-- Each loop iteration strictly advances the input position while input
remains. -/
theorem stepRTF_i_lt (data : List Nat) (s : RtfState) (h : s.i < data.length) :
    s.i < (stepRTF data s).i := by
  unfold stepRTF
  split
  · rename_i hnil
    rw [List.drop_eq_nil_iff] at hnil
    omega
  · simp
  · simp
  · rename_i rest _
    match rest with
    | [] => simp
    | c2 :: rest2 =>
      simp only
      split
      · rename_i hl
        have := rtfWordStep_i s c2 rest2 hl
        omega
      · have := rtfSymStep_i s c2 rest2
        omega
  · split <;> simp

/-- With fuel at least the remaining input length, the loop runs to
completion: the final position is past the end of the input.  This
certifies that driving runRTF with fuel data.length from position zero is
the whole tokenizer loop of the source. -/
theorem runRTF_complete (data : List Nat) :
    ∀ fuel s, data.length ≤ s.i + fuel → data.length ≤ (runRTF data fuel s).i := by
  intro fuel
  induction fuel with
  | zero => intro s h; simpa [runRTF] using h
  | succ n ih =>
    intro s h
    rw [runRTF]
    split
    · rename_i hlt
      exact ih (stepRTF data s) (by have := stepRTF_i_lt data s hlt; omega)
    · omega

/-- C10: the RTF extractor is total and never returns an error: every input
byte sequence, including truncated escapes (a trailing backslash, a quote
escape with fewer than two bytes left or with invalid hex digits), excess
closing braces, and arbitrary non-RTF bytes, yields a nil-error result; and
the tokenizer loop consumes the whole input. -/
theorem rtf_total :
    (∀ data, ∃ t, extractRTF data = .ok t) ∧
    (∀ data, data.length ≤ (runRTF data data.length ⟨0, 0, -1, []⟩).i) ∧
    extractRTF [92] = .ok [] ∧
    extractRTF [92, 39, 52] = .ok [52] ∧
    extractRTF [92, 39, 122, 122] = .ok [] ∧
    extractRTF [125, 125, 65] = .ok [65] ∧
    extractRTF [255, 0] = .ok [255, 0] := by
  refine ⟨fun data => ?_, fun data => runRTF_complete data data.length _ (by omega),
    by decide, by decide, by decide, by decide, by decide⟩
  unfold extractRTF
  dsimp only
  split
  · exact ⟨_, rfl⟩
  split
  · exact ⟨_, rfl⟩
  split
  · exact ⟨_, rfl⟩
  · exact ⟨_, rfl⟩

/-! ## RTF skip-marker invariant (C2) -/

/-- A control-symbol step either leaves the skip marker unchanged or sets
it (from unset) to the current depth. -/
theorem rtfSymStep_skip (s : RtfState) (c2 : Nat) (rest2 : List Nat) :
    (rtfSymStep s c2 rest2).skip = s.skip ∨
      (s.skip < 0 ∧ (rtfSymStep s c2 rest2).skip = (s.depth : Int)) := by
  unfold rtfSymStep
  repeat' split
  all_goals (dsimp only; omega)

/-- A control-word step either leaves the skip marker unchanged or sets it
(from unset) to the current depth. -/
theorem rtfWordStep_skip (s : RtfState) (c2 : Nat) (rest2 : List Nat) :
    (rtfWordStep s c2 rest2).skip = s.skip ∨
      (s.skip < 0 ∧ (rtfWordStep s c2 rest2).skip = (s.depth : Int)) := by
  unfold rtfWordStep rtfWordFinish
  dsimp only
  omega

/-- Case analysis of one step's effect on the skip marker: unchanged, set
from unset to the current depth, or cleared at a closing brace whose depth
equals the recorded value. -/
theorem stepRTF_skip_cases (data : List Nat) (s : RtfState) :
    (stepRTF data s).skip = s.skip ∨
      (s.skip < 0 ∧ (stepRTF data s).skip = (s.depth : Int)) ∨
      (0 ≤ s.skip ∧ (stepRTF data s).skip = -1 ∧ (data.drop s.i).head? = some 125 ∧
        (s.depth : Int) = s.skip) := by
  unfold stepRTF
  split
  · left; rfl
  · left; rfl
  · rename_i tl heq
    show (if 0 ≤ s.skip ∧ (s.depth : Int) = s.skip then (-1 : Int) else s.skip) = s.skip ∨ _
    split
    · rename_i hc
      right; right
      refine ⟨hc.1, rfl, ?_, hc.2⟩
      rw [heq]
      rfl
    · left; rfl
  · rename_i rest heq
    match rest with
    | [] => left; rfl
    | c2 :: rest2 =>
      show (if isLetter c2 = true then rtfWordStep s c2 rest2 else rtfSymStep s c2 rest2).skip
              = s.skip ∨
          (s.skip < 0 ∧
            (if isLetter c2 = true then rtfWordStep s c2 rest2
              else rtfSymStep s c2 rest2).skip = (s.depth : Int)) ∨
          (0 ≤ s.skip ∧
            (if isLetter c2 = true then rtfWordStep s c2 rest2
              else rtfSymStep s c2 rest2).skip = -1 ∧
            (data.drop s.i).head? = some 125 ∧ (s.depth : Int) = s.skip)
      split
      · rcases rtfWordStep_skip s c2 rest2 with hc | hc
        · left; exact hc
        · right; left; exact hc
      · rcases rtfSymStep_skip s c2 rest2 with hc | hc
        · left; exact hc
        · right; left; exact hc
  · split
    · left; rfl
    · left; rfl

/-- Whenever one step turns the skip marker from unset to set, the recorded
value is exactly the current group depth. -/
theorem stepRTF_skip_set (data : List Nat) (s : RtfState) (h : s.skip < 0)
    (h2 : 0 ≤ (stepRTF data s).skip) : (stepRTF data s).skip = (s.depth : Int) := by
  rcases stepRTF_skip_cases data s with hc | hc | hc
  · omega
  · exact hc.2
  · omega

/-- While the skip marker is set, one step either preserves it or clears it,
and clearing happens only on a closing brace at exactly the recorded
depth. -/
theorem stepRTF_skip_active (data : List Nat) (s : RtfState) (h : 0 ≤ s.skip) :
    (stepRTF data s).skip = s.skip ∨
      ((stepRTF data s).skip = -1 ∧ (data.drop s.i).head? = some 125 ∧
        (s.depth : Int) = s.skip) := by
  rcases stepRTF_skip_cases data s with hc | hc | hc
  · left; exact hc
  · omega
  · right; exact ⟨hc.2.1, hc.2.2.1, hc.2.2.2⟩

/-- At a closing brace while the skip marker is set, the marker is cleared
precisely when the current depth equals the recorded value. -/
theorem stepRTF_skip_clear (data : List Nat) (s : RtfState) (r : List Nat) (h : 0 ≤ s.skip)
    (hdrop : data.drop s.i = 125 :: r) :
    ((stepRTF data s).skip = -1 ↔ (s.depth : Int) = s.skip) := by
  unfold stepRTF
  rw [hdrop]
  dsimp only
  constructor
  · intro hc
    split at hc
    · rename_i hcond; exact hcond.2
    · omega
  · intro hd
    rw [if_pos ⟨h, hd⟩]

/-- C2: throughout every run of the RTF tokenizer, a skip marker set by a
step equals the group depth at that moment; while set it is preserved by
every step except a closing brace at exactly the recorded depth, which
clears it; and consequently the font-table destination group of the input
left-brace backslash-fonttbl nested-group right-brace Text is discarded in
full, producing exactly the bytes of Text. -/
theorem rtf_skip_invariant :
    (∀ (data : List Nat) (s : RtfState), s.skip < 0 → 0 ≤ (stepRTF data s).skip →
        (stepRTF data s).skip = (s.depth : Int)) ∧
    (∀ (data : List Nat) (s : RtfState), 0 ≤ s.skip →
        (stepRTF data s).skip = s.skip ∨
          ((stepRTF data s).skip = -1 ∧ (data.drop s.i).head? = some 125 ∧
            (s.depth : Int) = s.skip)) ∧
    (∀ (data : List Nat) (s : RtfState) (r : List Nat), 0 ≤ s.skip →
        data.drop s.i = 125 :: r →
        ((stepRTF data s).skip = -1 ↔ (s.depth : Int) = s.skip)) ∧
    extractRTF rtfC2Input = .ok [84, 101, 120, 116] :=
  ⟨fun data s => stepRTF_skip_set data s,
   fun data s => stepRTF_skip_active data s,
   fun data s r => stepRTF_skip_clear data s r,
   by decide⟩

/-- Witness for rtf_skip_invariant: after one step on backslash star from
the initial state, the skip marker is set and equals the depth zero. -/
theorem rtf_skip_invariant_witness :
    (stepRTF [92, 42] ⟨0, 0, -1, []⟩).skip = (((⟨0, 0, -1, []⟩ : RtfState)).depth : Int) :=
  rtf_skip_invariant.1 [92, 42] ⟨0, 0, -1, []⟩ (by decide) (by decide)

/-! ## RTF unicode escape (C6) -/

/-- A digit byte is not a letter byte. -/
theorem digit_not_letter (d : Nat) (h : isDigit d = true) : isLetter d = false := by
  simp [isDigit] at h
  simp [isLetter]
  omega

/-- Splitting a digit run terminated by a question mark. -/
theorem takeWhile_digits (r : List Nat) :
    ∀ ds, (∀ x ∈ ds, isDigit x = true) →
      (ds ++ 63 :: r).takeWhile isDigit = ds ∧ (ds ++ 63 :: r).dropWhile isDigit = 63 :: r := by
  intro ds
  induction ds with
  | nil =>
    intro _
    exact ⟨rfl, rfl⟩
  | cons d ds ih =>
    intro h
    have hd : isDigit d = true := h d (by simp)
    have ihr := ih fun x hx => h x (by simp [hx])
    constructor
    · rw [List.cons_append, List.takeWhile_cons_of_pos hd, ihr.1]
    · rw [List.cons_append, List.dropWhile_cons_of_pos hd, ihr.2]

/-- At a backslash followed by a letter, one step is the control-word
step. -/
theorem stepRTF_backslash_letter (data : List Nat) (s : RtfState) (c2 : Nat) (rest2 : List Nat)
    (hdrop : data.drop s.i = 92 :: c2 :: rest2) (hl : isLetter c2 = true) :
    stepRTF data s = rtfWordStep s c2 rest2 := by
  unfold stepRTF
  rw [hdrop]
  simp [hl]

/-- The control-word step for the escape u with a digit argument and a
question-mark fallback byte: when not skipping, it writes the rune obtained
from the 32-bit truncation of the argument (with Go's invalid-scalar
replacement) and consumes the digits and the question mark. -/
theorem rtfWordStep_u (s : RtfState) (d : Nat) (ds2 r : List Nat)
    (hd : isDigit d = true) (hdig : ∀ x ∈ ds2, isDigit x = true)
    (hbound : digitsToNat (d :: ds2) ≤ 9223372036854775807)
    (hskip : s.skip < 0) (hnosp : r.head? ≠ some 32) :
    rtfWordStep s 117 (d :: (ds2 ++ 63 :: r)) =
      { s with i := s.i + ds2.length + 4,
               out := s.out ++ utf8EncodeRune (int32wrap (digitsToNat (d :: ds2) : Int)) } := by
  have h117 : isLetter 117 = true := by decide
  have hdl : ¬ isLetter d = true := by rw [digit_not_letter d hd]; simp
  have h45 : ¬ d = 45 := by simp [isDigit] at hd; omega
  have htw := takeWhile_digits r (d :: ds2) (by
    intro x hx
    rcases List.mem_cons.mp hx with hx | hx
    · exact hx ▸ hd
    · exact hdig x hx)
  rw [show ((d :: ds2) ++ 63 :: r : List Nat) = d :: (ds2 ++ 63 :: r) from by simp] at htw
  unfold rtfWordStep rtfWordFinish
  rw [List.takeWhile_cons_of_pos h117, List.dropWhile_cons_of_pos h117,
      List.takeWhile_cons_of_neg hdl, List.dropWhile_cons_of_neg hdl]
  simp only [List.headD_cons, List.head?_cons, List.tail_cons, List.length_cons]
  simp only [if_neg h45]
  have henter : (d = 45 ∨ isDigit d = true) := Or.inr hd
  rw [if_pos henter, if_pos henter, if_pos henter]
  rw [htw.1, htw.2]
  have hpar : ¬((([117] : List Nat) = wPar ∨ ([117] : List Nat) = wLine) ∧ s.skip < 0) := by
    intro hc
    rcases hc.1 with hc1 | hc1 <;> exact absurd hc1 (by decide)
  have htab : ¬(([117] : List Nat) = wTab ∧ s.skip < 0) := by
    intro hc
    exact absurd hc.1 (by decide)
  have hdest : ¬(destWord [117] = true ∧ s.skip < 0) := by
    intro hc
    exact absurd hc.1 (by decide)
  have hne2 : (d :: ds2 : List Nat) ≠ [] := by simp
  simp [hskip, hbound, hne2, hnosp, hpar, htab, hdest, RtfState.mk.injEq]
  refine ⟨by omega, fun h => absurd h (by decide), ?_⟩
  rw [if_neg (by decide : ¬(([117] : List Nat) = wPar ∨ ([117] : List Nat) = wLine)),
      if_neg (by decide : ¬(([117] : List Nat) = wTab))]

/-- C6: an RTF unicode escape backslash-u 9472 followed by a question mark
produces the single code point U+2500 (bytes 226 148 128) and no literal
question mark; in general, at a backslash-u escape with digit argument N
(fitting a signed 64-bit integer) followed by a question mark, a
non-skipping step appends the UTF-8 encoding of the 32-bit truncation of N
(U+FFFD when that value is not a Unicode scalar value), consumes the
question mark, and leaves depth and skip unchanged. -/
theorem rtf_unicode_escape :
    (extractRTF [92, 117, 57, 52, 55, 50, 63] = .ok [226, 148, 128] ∧
      (63 : Nat) ∉ [226, 148, 128]) ∧
    (∀ (data : List Nat) (s : RtfState) (d : Nat) (ds2 r : List Nat),
      data.drop s.i = 92 :: 117 :: d :: (ds2 ++ 63 :: r) →
      isDigit d = true → (∀ x ∈ ds2, isDigit x = true) →
      digitsToNat (d :: ds2) ≤ 9223372036854775807 →
      s.skip < 0 → r.head? ≠ some 32 →
      (stepRTF data s).out = s.out ++ utf8EncodeRune (int32wrap (digitsToNat (d :: ds2) : Int)) ∧
      (stepRTF data s).i = s.i + ds2.length + 4 ∧
      (stepRTF data s).skip = s.skip ∧ (stepRTF data s).depth = s.depth) := by
  refine ⟨⟨by decide, by decide⟩, ?_⟩
  intro data s d ds2 r hdrop hd hdig hbound hskip hnosp
  have h117 : isLetter 117 = true := by decide
  rw [stepRTF_backslash_letter data s 117 (d :: (ds2 ++ 63 :: r)) hdrop h117]
  rw [rtfWordStep_u s d ds2 r hd hdig hbound hskip hnosp]
  exact ⟨rfl, rfl, rfl, rfl⟩

/-- Witness for rtf_unicode_escape: one step at backslash-u 9472
question-mark from the initial state. -/
theorem rtf_unicode_escape_witness :
    (stepRTF [92, 117, 57, 52, 55, 50, 63] ⟨0, 0, -1, []⟩).out = [226, 148, 128] := by
  have h := rtf_unicode_escape.2 [92, 117, 57, 52, 55, 50, 63] ⟨0, 0, -1, []⟩ 57 [52, 55, 50] []
    (by decide) (by decide) (by decide) (by decide) (by decide) (by decide)
  rw [h.1]
  decide

/-- C6, counterexample: for the numeric argument 55296 (a surrogate), the
escape emits the replacement character U+FFFD, not the code point 55296:
the output bytes are the encoding of U+FFFD and differ from the UTF-8
encoding of code point 55296. -/
theorem rtf_unicode_surrogate_counterexample :
    extractRTF [92, 117, 53, 53, 50, 57, 54, 63] = .ok (encodeValidRune 65533) ∧
    encodeValidRune 65533 ≠ encodeValidRune 55296 := by
  constructor
  · decide
  · decide

/-! ## DOCX walker: malformed XML discards accumulated text (C7) -/

/-- Both walker loops return the empty text with any error, and an error
token in the stream is always surfaced. -/
theorem docx_error_lemma :
    ∀ evs : List XmlEvent,
      (∀ stack acc m, (docxOuter evs stack acc).2 = some m → (docxOuter evs stack acc).1 = []) ∧
      (∀ stack acc txt m, (docxInT evs stack acc txt).2 = some m →
        (docxInT evs stack acc txt).1 = []) ∧
      (∀ stack acc, hasErrTok evs = true → (docxOuter evs stack acc).2 ≠ none) ∧
      (∀ stack acc txt, hasErrTok evs = true → (docxInT evs stack acc txt).2 ≠ none) := by
  intro evs
  induction evs with
  | nil =>
    refine ⟨?_, ?_, ?_, ?_⟩ <;> intro stack acc <;> simp [docxOuter, docxInT, hasErrTok]
  | cons e rest ih =>
    obtain ⟨ih1, ih2, ih3, ih4⟩ := ih
    cases e with
    | start sp l =>
      refine ⟨?_, ?_, ?_, ?_⟩
      · intro stack acc m
        unfold docxOuter
        split
        · exact ih1 _ _ m
        split
        · exact ih1 _ _ m
        split
        · exact ih2 _ _ _ m
        · exact ih1 _ _ m
      · intro stack acc txt m
        unfold docxInT
        exact ih2 _ _ _ m
      · intro stack acc herr
        rw [hasErrTok] at herr
        simp at herr
        unfold docxOuter
        split
        · exact ih3 _ _ (by simp [hasErrTok, herr])
        split
        · exact ih3 _ _ (by simp [hasErrTok, herr])
        split
        · exact ih4 _ _ _ (by simp [hasErrTok, herr])
        · exact ih3 _ _ (by simp [hasErrTok, herr])
      · intro stack acc txt herr
        rw [hasErrTok] at herr
        simp at herr
        unfold docxInT
        exact ih4 _ _ _ (by simp [hasErrTok, herr])
    | endEl l =>
      refine ⟨?_, ?_, ?_, ?_⟩
      · intro stack acc m
        unfold docxOuter
        split
        · exact ih1 _ _ m
        · exact ih1 _ _ m
      · intro stack acc txt m
        unfold docxInT
        split
        · exact ih1 _ _ m
        · exact ih2 _ _ _ m
      · intro stack acc herr
        rw [hasErrTok] at herr
        simp at herr
        unfold docxOuter
        split
        · exact ih3 _ _ (by simp [hasErrTok, herr])
        · exact ih3 _ _ (by simp [hasErrTok, herr])
      · intro stack acc txt herr
        rw [hasErrTok] at herr
        simp at herr
        unfold docxInT
        split
        · exact ih3 _ _ (by simp [hasErrTok, herr])
        · exact ih4 _ _ _ (by simp [hasErrTok, herr])
    | chardata sx =>
      refine ⟨?_, ?_, ?_, ?_⟩
      · intro stack acc m
        unfold docxOuter
        exact ih1 _ _ m
      · intro stack acc txt m
        unfold docxInT
        exact ih2 _ _ _ m
      · intro stack acc herr
        rw [hasErrTok] at herr
        simp at herr
        unfold docxOuter
        exact ih3 _ _ (by simp [hasErrTok, herr])
      · intro stack acc txt herr
        rw [hasErrTok] at herr
        simp at herr
        unfold docxInT
        exact ih4 _ _ _ (by simp [hasErrTok, herr])
    | other =>
      refine ⟨?_, ?_, ?_, ?_⟩
      · intro stack acc m
        unfold docxOuter
        exact ih1 _ _ m
      · intro stack acc txt m
        unfold docxInT
        exact ih2 _ _ _ m
      · intro stack acc herr
        rw [hasErrTok] at herr
        simp at herr
        unfold docxOuter
        exact ih3 _ _ (by simp [hasErrTok, herr])
      · intro stack acc txt herr
        rw [hasErrTok] at herr
        simp at herr
        unfold docxInT
        exact ih4 _ _ _ (by simp [hasErrTok, herr])
    | errTok m2 =>
      refine ⟨?_, ?_, ?_, ?_⟩
      · intro stack acc m _
        rfl
      · intro stack acc txt m _
        rfl
      · intro stack acc _
        simp [docxOuter]
      · intro stack acc txt _
        simp [docxInT]

/-- C7: whenever the DOCX walker's token loop hits a decoding error
mid-stream, the walker returns that error together with the empty text:
text accumulated before the failure point is discarded. -/
theorem docx_malformed_discard (evs : List XmlEvent) :
    (∀ m, (extractDOCXStream evs).2 = some m → (extractDOCXStream evs).1 = []) ∧
    (hasErrTok evs = true → (extractDOCXStream evs).2 ≠ none) := by
  refine ⟨fun m hm => ?_, fun herr => ?_⟩
  · exact (docx_error_lemma evs).1 [] [] m hm
  · exact (docx_error_lemma evs).2.2.1 [] [] herr

/-- Witness for docx_malformed_discard: a stream with a text run, character
data abc, then an error: the result text is empty. -/
theorem docx_malformed_discard_witness :
    (extractDOCXStream [.start [119] wT, .chardata [97, 98, 99], .errTok [98, 97, 100]]).1 = [] :=
  (docx_malformed_discard _).1 [98, 97, 100] (by decide)

/-! ## Idempotence of the RTF post-pass normalization (C8) -/

/-- CRLF replacement is the identity on lists without carriage returns. -/
theorem replaceCRLF_id : ∀ l : List Nat, 13 ∉ l → replaceCRLF l = l := by
  intro l
  induction l with
  | nil => intro _; rfl
  | cons a l ih =>
    intro h
    have ha : a ≠ 13 := fun hc => h (by simp [hc])
    cases l with
    | nil => rfl
    | cons b rest =>
      have hcond : ¬(a = 13 && b = 10) = true := by simp [ha]
      rw [replaceCRLF, if_neg hcond, ih (fun hc => h (by simp [hc]))]

/-- CR replacement is the identity on lists without carriage returns. -/
theorem replaceCR_id (l : List Nat) (h : 13 ∉ l) : replaceCR l = l := by
  rw [replaceCR]
  conv_rhs => rw [← List.map_id l]
  apply List.map_congr_left
  intro x hx
  have : x ≠ 13 := fun hc => h (hc ▸ hx)
  simp [this]

/-- CR replacement leaves no carriage returns. -/
theorem replaceCR_no13 (l : List Nat) : 13 ∉ replaceCR l := by
  rw [replaceCR]
  intro hmem
  obtain ⟨x, _, hx⟩ := List.mem_map.mp hmem
  by_cases hc : x = 13 <;> simp [hc] at hx

/-- Newline collapsing only keeps bytes of its input. -/
theorem mem_collapseNewlines : ∀ l : List Nat, ∀ x ∈ collapseNewlines l, x ∈ l := by
  intro l
  induction l with
  | nil => intro x hx; exact hx
  | cons a l ih =>
    intro x hx
    cases l with
    | nil => exact hx
    | cons b rest =>
      rw [collapseNewlines] at hx
      split at hx
      · exact List.mem_cons_of_mem a (ih x hx)
      · rcases List.mem_cons.mp hx with hx | hx
        · simp [hx]
        · exact List.mem_cons_of_mem a (ih x hx)

/-- Space collapsing only keeps input bytes or the space byte. -/
theorem mem_collapseSpacesAux :
    ∀ (l : List Nat) (f : Bool), ∀ x ∈ collapseSpacesAux f l, x ∈ l ∨ x = 32 := by
  intro l
  induction l with
  | nil => intro f x hx; cases hx
  | cons a l ih =>
    intro f x hx
    cases l with
    | nil =>
      rw [collapseSpacesAux] at hx
      split at hx
      · simp at hx
        subst hx
        split
        · right; rfl
        · left; simp
      · rcases List.mem_cons.mp hx with hx | hx
        · left; simp [hx]
        · cases hx
    | cons b rest =>
      rw [collapseSpacesAux] at hx
      split at hx
      · split at hx
        · rcases ih true x hx with hh | hh
          · left; exact List.mem_cons_of_mem a hh
          · right; exact hh
        · rcases List.mem_cons.mp hx with hx | hx
          · subst hx
            split
            · right; rfl
            · left; simp
          · rcases ih false x hx with hh | hh
            · left; exact List.mem_cons_of_mem a hh
            · right; exact hh
      · rcases List.mem_cons.mp hx with hx | hx
        · left; simp [hx]
        · rcases ih false x hx with hh | hh
          · left; exact List.mem_cons_of_mem a hh
          · right; exact hh

/-- Whitespace-before-punctuation removal only keeps input bytes. -/
theorem mem_rmSp : ∀ l : List Nat, ∀ x ∈ rmSp l, x ∈ l := by
  intro l
  induction l with
  | nil => intro x hx; exact hx
  | cons c l ih =>
    intro x hx
    rw [rmSp] at hx
    split at hx
    · exact List.mem_cons_of_mem c (ih x hx)
    · rcases List.mem_cons.mp hx with hx | hx
      · simp [hx]
      · exact List.mem_cons_of_mem c (ih x hx)

/-- The head of the newline-collapsed list is the original head. -/
theorem collapseNewlines_head :
    ∀ (l : List Nat) (a : Nat), (collapseNewlines (a :: l)).head? = some a := by
  intro l
  induction l with
  | nil => intro a; rfl
  | cons b rest ih =>
    intro a
    rw [collapseNewlines]
    split
    · rename_i hc
      simp at hc
      rw [ih b, hc.1, hc.2]
    · rfl

/-- The output of newline collapsing has no adjacent pair of newlines. -/
theorem collapseNewlines_noNN :
    ∀ l : List Nat, List.Chain' (fun a b => ¬(a = 10 ∧ b = 10)) (collapseNewlines l) := by
  intro l
  induction l with
  | nil => simp [collapseNewlines]
  | cons a l ih =>
    cases l with
    | nil => simp [collapseNewlines]
    | cons b rest =>
      rw [collapseNewlines]
      split
      · exact ih
      · rename_i hc
        simp at hc
        rw [List.chain'_cons']
        refine ⟨?_, ih⟩
        intro y hy
        rw [collapseNewlines_head rest b] at hy
        simp at hy
        subst hy
        intro hand
        exact absurd (hc hand.1) (by simp [hand.2])

/-- Newline collapsing is the identity when no two newlines are
adjacent. -/
theorem collapseNewlines_id :
    ∀ l : List Nat, List.Chain' (fun a b => ¬(a = 10 ∧ b = 10)) l → collapseNewlines l = l := by
  intro l
  induction l with
  | nil => intro _; rfl
  | cons a l ih =>
    intro h
    cases l with
    | nil => rfl
    | cons b rest =>
      have hrel := (List.chain'_cons.mp h).1
      rw [collapseNewlines, if_neg (by simpa using hrel), ih (List.chain'_cons.mp h).2]

/-- The head of the space-collapsed list is the original head or, when the
original head was a space or tab, possibly the space byte. -/
theorem collapseSpacesAux_head :
    ∀ (l : List Nat) (f : Bool) (a : Nat),
      ∃ h, (collapseSpacesAux f (a :: l)).head? = some h ∧
        (h = a ∨ (isSpTab a = true ∧ isSpTab h = true)) := by
  intro l
  induction l with
  | nil =>
    intro f a
    by_cases hs : isSpTab a = true
    · refine ⟨if f then 32 else a, by simp [collapseSpacesAux, hs], ?_⟩
      cases f
      · simp
      · right
        exact ⟨hs, by simp; decide⟩
    · exact ⟨a, by simp [collapseSpacesAux, hs], Or.inl rfl⟩
  | cons b rest ih =>
    intro f a
    by_cases hsa : isSpTab a = true
    · by_cases hsb : isSpTab b = true
      · obtain ⟨h, hh, hcase⟩ := ih true b
        refine ⟨h, ?_, ?_⟩
        · rw [show collapseSpacesAux f (a :: b :: rest) = collapseSpacesAux true (b :: rest) from
            by rw [collapseSpacesAux]; simp [hsa, hsb]]
          exact hh
        · right
          refine ⟨hsa, ?_⟩
          rcases hcase with h1 | h1
          · rw [h1]; exact hsb
          · exact h1.2
      · refine ⟨if f then 32 else a, ?_, ?_⟩
        · rw [collapseSpacesAux]
          simp [hsa, hsb]
        · cases f
          · simp
          · right
            exact ⟨hsa, by simp; decide⟩
    · refine ⟨a, ?_, Or.inl rfl⟩
      rw [collapseSpacesAux]
      simp [hsa]

/-- The output of space collapsing has no adjacent pair of spaces/tabs. -/
theorem collapseSpacesAux_noSS :
    ∀ (l : List Nat) (f : Bool),
      List.Chain' (fun a b => ¬(isSpTab a = true ∧ isSpTab b = true)) (collapseSpacesAux f l) := by
  intro l
  induction l with
  | nil => intro f; simp [collapseSpacesAux]
  | cons a l ih =>
    intro f
    cases l with
    | nil =>
      rw [collapseSpacesAux]
      split
      · simp
      · simp [collapseSpacesAux]
    | cons b rest =>
      rw [collapseSpacesAux]
      split
      · split
        · exact ih true
        · rename_i hsa hsb
          rw [List.chain'_cons']
          refine ⟨?_, ih false⟩
          intro y hy
          obtain ⟨h, hh, hcase⟩ := collapseSpacesAux_head rest false b
          rw [hh] at hy
          simp at hy
          subst hy
          intro hand
          rcases hcase with h1 | h1
          · rw [h1] at hand
            exact hsb hand.2
          · exact hsb h1.1
      · rename_i hsa
        rw [List.chain'_cons']
        refine ⟨?_, ih false⟩
        intro y hy
        intro hand
        exact hsa hand.1

/-- Space collapsing is the identity when no two spaces/tabs are
adjacent. -/
theorem collapseSpaces_id :
    ∀ l : List Nat,
      List.Chain' (fun a b => ¬(isSpTab a = true ∧ isSpTab b = true)) l →
      collapseSpaces l = l := by
  intro l
  induction l with
  | nil => intro _; rfl
  | cons a l ih =>
    intro h
    cases l with
    | nil =>
      rw [collapseSpaces, collapseSpacesAux]
      split
      · rfl
      · rfl
    | cons b rest =>
      rw [collapseSpaces, collapseSpacesAux]
      split
      · rename_i hsa
        have hrel := (List.chain'_cons.mp h).1
        have hsb : ¬ isSpTab b = true := fun hc => hrel ⟨hsa, hc⟩
        rw [if_neg hsb]
        have := ih (List.chain'_cons.mp h).2
        rw [collapseSpaces] at this
        rw [this]
        rfl
      · have := ih (List.Chain'.tail h)
        rw [collapseSpaces] at this
        rw [this]

/-- Space collapsing preserves the absence of adjacent newlines. -/
theorem collapseSpacesAux_presNN :
    ∀ (l : List Nat) (f : Bool),
      List.Chain' (fun a b => ¬(a = 10 ∧ b = 10)) l →
      List.Chain' (fun a b => ¬(a = 10 ∧ b = 10)) (collapseSpacesAux f l) := by
  intro l
  induction l with
  | nil => intro f _; simp [collapseSpacesAux]
  | cons a l ih =>
    intro f h
    cases l with
    | nil =>
      rw [collapseSpacesAux]
      split
      · simp
      · simp [collapseSpacesAux]
    | cons b rest =>
      rw [collapseSpacesAux]
      split
      · rename_i hsa
        split
        · exact ih true (List.Chain'.tail h)
        · rw [List.chain'_cons']
          refine ⟨?_, ih false (List.Chain'.tail h)⟩
          intro y hy hand
          have : (if f then 32 else a) ≠ 10 := by
            split
            · simp
            · intro hc
              rw [hc] at hsa
              exact absurd hsa (by decide)
          exact this hand.1
      · rename_i hsa
        rw [List.chain'_cons']
        refine ⟨?_, ih false (List.Chain'.tail h)⟩
        intro y hy hand
        obtain ⟨hd, hh, hcase⟩ := collapseSpacesAux_head rest false b
        rw [hh] at hy
        simp at hy
        subst hy
        have hrel := (List.chain'_cons.mp h).1
        rcases hcase with h1 | h1
        · rw [h1] at hand
          exact hrel hand
        · have hd10 : hd ≠ 10 := by
            intro hc
            rw [hc] at h1
            exact absurd h1.2 (by decide)
          exact hd10 hand.2

/-- A helper: the punctuation-head test in terms of the head. -/
theorem punctHead_iff (l : List Nat) :
    punctHead l = true ↔ ∃ p, l.head? = some p ∧ isPunct p = true := by
  cases l with
  | nil => simp [punctHead]
  | cons a l => simp [punctHead]

/-- The head of the punctuation-space-removed list is the original head or
a punctuation byte. -/
theorem rmSp_head (l : List Nat) :
    (rmSp l).head? = l.head? ∨ ∃ p, (rmSp l).head? = some p ∧ isPunct p = true := by
  cases l with
  | nil => left; rfl
  | cons c l =>
    rw [rmSp]
    split
    · rename_i hc
      simp at hc
      right
      obtain ⟨p, hp, hip⟩ := (punctHead_iff (rmSp l)).mp hc.2
      exact ⟨p, hp, hip⟩
    · left; rfl

/-- Punctuation-space removal preserves any adjacency property that always
holds when the right element is punctuation. -/
theorem rmSp_chain_pres (R : Nat → Nat → Prop) (hR : ∀ a b, isPunct b = true → R a b) :
    ∀ l : List Nat, List.Chain' R l → List.Chain' R (rmSp l) := by
  intro l
  induction l with
  | nil => intro _; simp [rmSp]
  | cons c l ih =>
    intro h
    rw [rmSp]
    split
    · exact ih (List.Chain'.tail h)
    · rw [List.chain'_cons']
      refine ⟨?_, ih (List.Chain'.tail h)⟩
      intro y hy
      rcases rmSp_head l with hh | ⟨p, hp, hip⟩
      · rw [hh] at hy
        cases l with
        | nil => cases hy
        | cons b rest =>
          simp at hy
          subst hy
          exact (List.chain'_cons.mp h).1
      · rw [hp] at hy
        simp at hy
        subst hy
        exact hR c p hip

/-- The output of punctuation-space removal has no whitespace immediately
before punctuation. -/
theorem rmSp_noWP :
    ∀ l : List Nat,
      List.Chain' (fun a b => ¬(isWS a = true ∧ isPunct b = true)) (rmSp l) := by
  intro l
  induction l with
  | nil => simp [rmSp]
  | cons c l ih =>
    rw [rmSp]
    split
    · exact ih
    · rename_i hc
      rw [List.chain'_cons']
      refine ⟨?_, ih⟩
      intro y hy hand
      apply hc
      simp
      refine ⟨hand.1, ?_⟩
      rw [punctHead_iff]
      cases hrm : (rmSp l).head? with
      | none => rw [hrm] at hy; cases hy
      | some z =>
        rw [hrm] at hy
        simp at hy
        subst hy
        exact ⟨z, rfl, hand.2⟩

/-- Punctuation-space removal is the identity when no whitespace stands
immediately before punctuation. -/
theorem rmSp_id :
    ∀ l : List Nat,
      List.Chain' (fun a b => ¬(isWS a = true ∧ isPunct b = true)) l → rmSp l = l := by
  intro l
  induction l with
  | nil => intro _; rfl
  | cons c l ih =>
    intro h
    have htail := ih (List.Chain'.tail h)
    rw [rmSp, htail]
    rw [if_neg ?_]
    intro hc
    simp at hc
    obtain ⟨p, hp, hip⟩ := (punctHead_iff l).mp hc.2
    cases l with
    | nil => cases hp
    | cons b rest =>
      simp at hp
      subst hp
      exact (List.chain'_cons.mp h).1 ⟨hc.1, hip⟩

/-- C8: the RTF post-pass normalization (line-ending unification, newline
and space/tab run collapsing, whitespace-before-punctuation removal) is
idempotent: applying it to its own output changes nothing. -/
theorem normalizeRTF_idempotent (l : List Nat) :
    normalizeRTF (normalizeRTF l) = normalizeRTF l := by
  have h10 : ∀ a b : Nat, isPunct b = true → ¬(a = 10 ∧ b = 10) := by
    intro a b hb hand
    rw [hand.2] at hb
    exact absurd hb (by decide)
  have hss : ∀ a b : Nat, isPunct b = true → ¬(isSpTab a = true ∧ isSpTab b = true) := by
    intro a b hb hand
    have : b = 32 ∨ b = 9 := by
      have := hand.2
      simp [isSpTab] at this
      tauto
    rcases this with hb2 | hb2 <;> (rw [hb2] at hb; exact absurd hb (by decide))
  set y := normalizeRTF l with hy
  have h13y : (13 : Nat) ∉ y := by
    rw [hy]
    unfold normalizeRTF
    intro hmem
    have h1 := mem_rmSp _ 13 hmem
    rcases mem_collapseSpacesAux _ false 13 h1 with h2 | h2
    · exact replaceCR_no13 _ (mem_collapseNewlines _ 13 h2)
    · cases h2
  have hNN : List.Chain' (fun a b => ¬(a = 10 ∧ b = 10)) y := by
    rw [hy]
    unfold normalizeRTF
    exact rmSp_chain_pres _ h10 _ (collapseSpacesAux_presNN _ false (collapseNewlines_noNN _))
  have hSS : List.Chain' (fun a b => ¬(isSpTab a = true ∧ isSpTab b = true)) y := by
    rw [hy]
    unfold normalizeRTF
    exact rmSp_chain_pres _ hss _ (collapseSpacesAux_noSS _ false)
  have hWP : List.Chain' (fun a b => ¬(isWS a = true ∧ isPunct b = true)) y := by
    rw [hy]
    unfold normalizeRTF
    exact rmSp_noWP _
  show normalizeRTF y = y
  unfold normalizeRTF
  rw [replaceCRLF_id _ h13y, replaceCR_id _ h13y, collapseNewlines_id _ hNN,
      collapseSpaces_id _ hSS, rmSp_id _ hWP]

/-! ## Charset resolver: scored legacy decoding (C1) -/

/-- The selection loop either keeps its accumulator (when no candidate
scores strictly higher) or returns a candidate achieving the maximum. -/
theorem pickBest_cases :
    ∀ (ts : List (List Nat)) (bt : List Nat) (bs : Int),
      (pickBest ts (bt, bs) = (bt, bs) ∧ ∀ t ∈ ts, scoreCyrillicText t ≤ bs) ∨
      ((pickBest ts (bt, bs)).1 ∈ ts ∧
        (pickBest ts (bt, bs)).2 = scoreCyrillicText (pickBest ts (bt, bs)).1 ∧
        bs < (pickBest ts (bt, bs)).2 ∧
        ∀ t ∈ ts, scoreCyrillicText t ≤ (pickBest ts (bt, bs)).2) := by
  intro ts
  induction ts with
  | nil =>
    intro bt bs
    left
    exact ⟨rfl, by simp⟩
  | cons t ts ih =>
    intro bt bs
    rw [pickBest]
    by_cases hlt : bs < scoreCyrillicText t
    · rw [if_pos hlt]
      rcases ih t (scoreCyrillicText t) with ⟨heq, hall⟩ | ⟨hmem, hsc, hgt, hmax⟩
      · right
        rw [heq]
        refine ⟨by simp, rfl, hlt, ?_⟩
        intro u hu
        rcases List.mem_cons.mp hu with hu | hu
        · rw [hu]
        · exact hall u hu
      · right
        refine ⟨List.mem_cons_of_mem t hmem, hsc, by omega, ?_⟩
        intro u hu
        rcases List.mem_cons.mp hu with hu | hu
        · rw [hu]; omega
        · exact hmax u hu
    · rw [if_neg hlt]
      rcases ih bt bs with ⟨heq, hall⟩ | ⟨hmem, hsc, hgt, hmax⟩
      · left
        refine ⟨heq, ?_⟩
        intro u hu
        rcases List.mem_cons.mp hu with hu | hu
        · rw [hu]; omega
        · exact hall u hu
      · right
        refine ⟨List.mem_cons_of_mem t hmem, hsc, hgt, ?_⟩
        intro u hu
        rcases List.mem_cons.mp hu with hu | hu
        · rw [hu]; omega
        · exact hmax u hu

/-- The selection loop keeps its accumulator when every candidate scores at
most the accumulated best score. -/
theorem pickBest_stay (ts : List (List Nat)) (bt : List Nat) (bs : Int)
    (h : ∀ t ∈ ts, scoreCyrillicText t ≤ bs) : pickBest ts (bt, bs) = (bt, bs) := by
  rcases pickBest_cases ts bt bs with ⟨heq, _⟩ | ⟨hmem, hsc, hgt, _⟩
  · exact heq
  · have := h _ hmem
    omega

/-- C1, amended: for every input that has no UTF-16 BOM and is not valid
UTF-8, either some trial decoding among the five legacy encodings scores
strictly above the selection loop's initial best score of -2^31, in which
case the extractor returns a highest-scoring candidate (or the raw
byte-to-code-point fallback when that candidate contains U+FFFD), always
with line endings normalized; or every decoding scores at most -2^31 and
the extractor returns the byte-to-code-point fallback directly. -/
theorem txt_legacy_best (data : List Nat) (h1 : bomLE data = false) (h2 : bomBE data = false)
    (hV : utf8Valid data = false) :
    (∃ best ∈ candidateTexts data,
        (∀ t ∈ candidateTexts data, scoreCyrillicText t ≤ scoreCyrillicText best) ∧
        -2147483648 < scoreCyrillicText best ∧
        extractTXT data = .ok (normNL (goStr (if best.contains 65533 then data else best))))
    ∨ ((∀ t ∈ candidateTexts data, scoreCyrillicText t ≤ -2147483648) ∧
        extractTXT data = .ok (normNL (goStr data))) := by
  have hdata : data ≠ [] := by
    intro hc
    rw [hc] at hV
    exact absurd hV (by decide)
  have hbr : extractTXT data =
      (match decodeBestCyrillic data with
        | some t => Except.ok (normNL (goStr t))
        | none => Except.ok (normNL (goStr data))) := by
    simp [extractTXT, h1, h2, hV]
  rcases pickBest_cases (candidateTexts data) [] (-2147483648) with
    ⟨heq, hall⟩ | ⟨hmem, hsc, hgt, hmax⟩
  · right
    refine ⟨hall, ?_⟩
    have hdb : decodeBestCyrillic data = none := by
      rw [decodeBestCyrillic, heq]
      simp
    rw [hbr, hdb]
  · left
    refine ⟨(pickBest (candidateTexts data) ([], -2147483648)).1, hmem, ?_, ?_, ?_⟩
    · intro t ht
      have := hmax t ht
      omega
    · omega
    · have hbne : (pickBest (candidateTexts data) ([], -2147483648)).1 ≠ [] := by
        have hne : ∀ t ∈ candidateTexts data, t ≠ [] := by
          intro t ht
          rw [candidateTexts] at ht
          simp at ht
          rcases ht with h | h | h | h | h <;> (rw [h]; simp [hdata])
        exact hne _ hmem
      cases hcont : (pickBest (candidateTexts data) ([], -2147483648)).1.contains 65533 with
      | true =>
        have hdb : decodeBestCyrillic data = none := by
          rw [decodeBestCyrillic]
          rw [if_neg hbne, if_pos hcont]
        rw [hbr, hdb]
        simp
      | false =>
        have hdb : decodeBestCyrillic data =
            some (pickBest (candidateTexts data) ([], -2147483648)).1 := by
          rw [decodeBestCyrillic]
          rw [if_neg hbne, if_neg (by rw [hcont]; simp)]
        rw [hbr, hdb]
        simp

/-- Witness for txt_legacy_best at the single byte 0xC8, which is invalid
UTF-8 and decodes to a Cyrillic letter under the first three candidate
encodings. -/
theorem txt_legacy_best_witness :
    (∃ best ∈ candidateTexts [200],
        (∀ t ∈ candidateTexts [200], scoreCyrillicText t ≤ scoreCyrillicText best) ∧
        -2147483648 < scoreCyrillicText best ∧
        extractTXT [200] = .ok (normNL (goStr (if best.contains 65533 then [200] else best))))
    ∨ ((∀ t ∈ candidateTexts [200], scoreCyrillicText t ≤ -2147483648) ∧
        extractTXT [200] = .ok (normNL (goStr [200]))) :=
  txt_legacy_best [200] rfl rfl rfl

/-- Per-class count of a constant list. -/
theorem countP_replicate (p : Nat → Bool) (a : Nat) :
    ∀ n, (List.replicate n a).countP p = if p a then n else 0 := by
  intro n
  induction n with
  | zero => simp
  | succ k ih =>
    rw [List.replicate_succ, List.countP_cons, ih]
    split <;> omega

/-- The score of one code point followed by a run of NUL code points:
every NUL counts as an other-control character. -/
theorem score_cons_rep0 (c : Nat) (m : Nat) :
    scoreCyrillicText (c :: List.replicate m 0) =
      3 * (if isCyr c = true then 1 else 0) + (if isAsciiPrint c = true then 1 else 0)
        - 50 * (if isRepl c = true then 1 else 0)
        - 5 * ((if isCtrlOther c = true then 1 else 0) + (m : Int)) := by
  rw [scoreCyrillicText, if_neg (by simp)]
  rw [List.countP_cons, List.countP_cons, List.countP_cons, List.countP_cons]
  rw [countP_replicate, countP_replicate, countP_replicate, countP_replicate]
  have e1 : isCyr 0 = false := rfl
  have e2 : isAsciiPrint 0 = false := rfl
  have e3 : isRepl 0 = false := rfl
  have e4 : isCtrlOther 0 = true := rfl
  rw [e1, e2, e3, e4]
  push_cast
  repeat' split
  all_goals first
    | omega
    | simp_all

/-- One UTF-8 byte list step of the Go string conversion. -/
theorem goStr_cons (a : Nat) (l : List Nat) :
    goStr (a :: l) = encodeValidRune (goRune (a : Int)) ++ goStr l := by
  simp [goStr]

/-- The Go string conversion of a run of NUL code points. -/
theorem goStr_replicate0 : ∀ n, goStr (List.replicate n (0 : Nat)) = List.replicate n 0 := by
  intro n
  induction n with
  | zero => rfl
  | succ k ih =>
    rw [List.replicate_succ, goStr_cons, ih]
    rfl

/-- Line-ending normalization is the identity without carriage returns. -/
theorem normNL_id (l : List Nat) (h : 13 ∉ l) : normNL l = l := by
  rw [normNL, replaceCRLF_id _ h, replaceCR_id _ h]

/-- The five trial decodings of the large input c1data. -/
theorem candidateTexts_c1data :
    candidateTexts c1data =
      [1048 :: List.replicate 500000000 0, 1093 :: List.replicate 500000000 0,
       1064 :: List.replicate 500000000 0, 187 :: List.replicate 500000000 0,
       9562 :: List.replicate 500000000 0] := by
  have e0 : ∀ t : List Nat, List.map (decByte t) (List.replicate 500000000 0) =
      List.replicate 500000000 (0 : Nat) := by
    intro t
    rw [List.map_replicate]
    rfl
  rw [candidateTexts, c1data]
  simp only [List.map_cons, e0]
  rfl

/-- C1, counterexample: on the input of one 0xC8 byte followed by half a
billion NUL bytes, every trial decoding scores at most -2^31, so the
selection loop keeps its empty initial accumulator and the extractor
returns the byte-to-code-point fallback even though the highest-scoring
candidates (the Cyrillic decodings) contain no replacement marker;
no highest-scoring candidate yields the returned text. -/
theorem txt_legacy_counterexample :
    ¬ (∃ best ∈ candidateTexts c1data,
        (∀ t ∈ candidateTexts c1data, scoreCyrillicText t ≤ scoreCyrillicText best) ∧
        extractTXT c1data =
          .ok (normNL (goStr (if best.contains 65533 then c1data else best)))) := by
  have hs1048 : scoreCyrillicText (1048 :: List.replicate 500000000 0) =
      3 - 5 * (500000000 : Int) := by
    rw [score_cons_rep0]
    norm_num [isCyr, isAsciiPrint, isRepl, isCtrlOther]
  have hs1093 : scoreCyrillicText (1093 :: List.replicate 500000000 0) =
      3 - 5 * (500000000 : Int) := by
    rw [score_cons_rep0]
    norm_num [isCyr, isAsciiPrint, isRepl, isCtrlOther]
  have hs1064 : scoreCyrillicText (1064 :: List.replicate 500000000 0) =
      3 - 5 * (500000000 : Int) := by
    rw [score_cons_rep0]
    norm_num [isCyr, isAsciiPrint, isRepl, isCtrlOther]
  have hs187 : scoreCyrillicText (187 :: List.replicate 500000000 0) =
      -(5 * (500000000 : Int)) := by
    rw [score_cons_rep0]
    norm_num [isCyr, isAsciiPrint, isRepl, isCtrlOther]
  have hs9562 : scoreCyrillicText (9562 :: List.replicate 500000000 0) =
      -(5 * (500000000 : Int)) := by
    rw [score_cons_rep0]
    norm_num [isCyr, isAsciiPrint, isRepl, isCtrlOther]
  have hall : ∀ t ∈ candidateTexts c1data, scoreCyrillicText t ≤ -2147483648 := by
    rw [candidateTexts_c1data]
    intro t ht
    simp only [List.mem_cons, List.not_mem_nil, or_false] at ht
    rcases ht with h | h | h | h | h <;> rw [h]
    · rw [hs1048]; norm_num
    · rw [hs1093]; norm_num
    · rw [hs1064]; norm_num
    · rw [hs187]; norm_num
    · rw [hs9562]; norm_num
  have hdb : decodeBestCyrillic c1data = none := by
    rw [decodeBestCyrillic, pickBest_stay _ _ _ hall]
    simp
  have hVc : utf8Valid c1data = false := rfl
  have hres : extractTXT c1data = .ok (normNL (goStr c1data)) := by
    have h1 : bomLE c1data = false := rfl
    have h2 : bomBE c1data = false := rfl
    simp [extractTXT, h1, h2, hVc, hdb]
  have hgoZ := goStr_replicate0 500000000
  have hgoData : goStr c1data = 195 :: 136 :: List.replicate 500000000 0 := by
    rw [c1data, goStr_cons, hgoZ]
    rfl
  have hno13 : ∀ c1 c2 : Nat, c1 ≠ 13 → c2 ≠ 13 →
      (13 : Nat) ∉ c1 :: c2 :: List.replicate 500000000 0 := by
    intro c1 c2 hc1 hc2 hmem
    simp only [List.mem_cons, List.mem_replicate] at hmem
    rcases hmem with h | h | h
    · exact hc1 h.symm
    · exact hc2 h.symm
    · exact absurd h.2 (by norm_num)
  rintro ⟨best, hmem, hmax, heq⟩
  have hge := hmax (1048 :: List.replicate 500000000 0)
    (by rw [candidateTexts_c1data]; exact List.mem_cons_self _ _)
  rw [hs1048] at hge
  rw [candidateTexts_c1data] at hmem
  simp only [List.mem_cons, List.not_mem_nil, or_false] at hmem
  have hcontZ : ∀ c : Nat, c ≠ 65533 →
      ((c :: List.replicate 500000000 0).contains 65533) = false := by
    intro c hc
    have hnm : (65533 : Nat) ∉ c :: List.replicate 500000000 0 := by
      intro hmm
      simp only [List.mem_cons, List.mem_replicate] at hmm
      rcases hmm with h | h
      · exact hc h.symm
      · exact absurd h.2 (by norm_num)
    have he : (c :: List.replicate 500000000 0).contains 65533 =
        decide ((65533 : Nat) ∈ c :: List.replicate 500000000 0) :=
      List.elem_eq_mem _ _
    rw [he, decide_eq_false hnm]
  have hgoA : goStr (1048 :: List.replicate 500000000 0) =
      208 :: 152 :: List.replicate 500000000 0 := by
    rw [goStr_cons, goStr_replicate0]
    rfl
  have hgoB : goStr (1093 :: List.replicate 500000000 0) =
      209 :: 133 :: List.replicate 500000000 0 := by
    rw [goStr_cons, goStr_replicate0]
    rfl
  have hgoC : goStr (1064 :: List.replicate 500000000 0) =
      208 :: 168 :: List.replicate 500000000 0 := by
    rw [goStr_cons, goStr_replicate0]
    rfl
  have hfinish : ∀ c1 c2 : Nat, c1 ≠ 13 → c2 ≠ 13 → (c1, c2) ≠ (195, 136) →
      ¬ (Except.ok (normNL (goStr c1data)) : Except (List Nat) (List Nat)) =
        .ok (normNL (c1 :: c2 :: List.replicate 500000000 0)) := by
    intro c1 c2 hc1 hc2 hne hcontra
    rw [hgoData] at hcontra
    rw [normNL_id _ (hno13 195 136 (by norm_num) (by norm_num)),
        normNL_id _ (hno13 c1 c2 hc1 hc2)] at hcontra
    simp only [Except.ok.injEq, List.cons.injEq] at hcontra
    obtain ⟨he1, he2, -⟩ := hcontra
    subst he1
    subst he2
    exact hne rfl
  rcases hmem with h | h | h | h | h
  · -- best is the windows-1251 decoding: no replacement marker, so the
    -- claim demands the candidate itself, but the code returned the
    -- byte-to-code-point fallback
    rw [h, hcontZ 1048 (by norm_num)] at heq
    simp only [Bool.false_eq_true, if_false] at heq
    rw [hres, hgoA] at heq
    exact hfinish 208 152 (by norm_num) (by norm_num) (by simp) heq
  · rw [h, hcontZ 1093 (by norm_num)] at heq
    simp only [Bool.false_eq_true, if_false] at heq
    rw [hres, hgoB] at heq
    exact hfinish 209 133 (by norm_num) (by norm_num) (by simp) heq
  · rw [h, hcontZ 1064 (by norm_num)] at heq
    simp only [Bool.false_eq_true, if_false] at heq
    rw [hres, hgoC] at heq
    exact hfinish 208 168 (by norm_num) (by norm_num) (by simp) heq
  · -- the mac-cyrillic decoding scores strictly below the maximum
    rw [h, hs187] at hge
    norm_num at hge
  · rw [h, hs9562] at hge
    norm_num at hge

end Docparser
